import Mathlib

/-!
Verification of the rasterization, clipping and transform engine of the
lite-graphics-engine repository (src/main.py).  The Python code is shallowly
embedded: integer-only algorithms (Bresenham line, midpoint circle) use `ℤ`,
algorithms that perform Python float division (Bézier sampling, scanline fill,
Cohen-Sutherland clipping) are modelled over `ℚ` with exact arithmetic, and
Python's `int(...)` conversion (truncation toward zero) is modelled by
`pytrunc`.  The two unbounded `while` loops are modelled with an explicit
fuel parameter that provably dominates the number of iterations the Python
loop performs.
-/

/-- Python `int(x)`: truncation toward zero of a rational number. -/
def pytrunc (q : ℚ) : ℤ := if 0 ≤ q then ⌊q⌋ else ⌈q⌉

/- ------------------------------------------------------------------ -/
/- `Algorithms.bresenham_line` (src/main.py lines 32-55).             -/
/- ------------------------------------------------------------------ -/

/-- The body of the `while True` loop of `bresenham_line`.  Each iteration
appends the current pixel, stops at the target, otherwise advances `x` and/or
`y` exactly as the Python code does.  `fuel` bounds the number of iterations;
`bresenham_line` supplies `|x1-x0| + |y1-y0| + 1`, which is proved sufficient
in `bresLoop_main`. -/
def bresLoop (x1 y1 dx dy sx sy : ℤ) : ℕ → ℤ → ℤ → ℤ → List (ℤ × ℤ)
  | 0, _, _, _ => []
  | fuel+1, x, y, err =>
    if x = x1 ∧ y = y1 then [(x, y)]
    else
      (x, y) :: bresLoop x1 y1 dx dy sx sy fuel
        (if 2 * err > -dy then x + sx else x)
        (if 2 * err < dx then y + sy else y)
        ((if 2 * err > -dy then err - dy else err) + (if 2 * err < dx then dx else 0))

/-- `Algorithms.bresenham_line`: Bresenham's line algorithm, returning the
list of `(x, y)` pixel coordinates. -/
def bresenham_line (x0 y0 x1 y1 : ℤ) : List (ℤ × ℤ) :=
  let dx := |x1 - x0|
  let dy := |y1 - y0|
  let sx : ℤ := if x0 < x1 then 1 else -1
  let sy : ℤ := if y0 < y1 then 1 else -1
  bresLoop x1 y1 dx dy sx sy ((dx + dy).toNat + 1) x0 y0 (dx - dy)

/-- 8-connectivity: two pixels differ by at most one in each coordinate. -/
def bresAdj (p q : ℤ × ℤ) : Prop := |q.1 - p.1| ≤ 1 ∧ |q.2 - p.2| ≤ 1

/- ------------------------------------------------------------------ -/
/- `Algorithms.midpoint_circle` (src/main.py lines 57-84).            -/
/- ------------------------------------------------------------------ -/

/-- The helper `add_symmetric` of `midpoint_circle`: the eight reflections
of `(x, y)` about the centre `(xc, yc)`. -/
def addSymmetric (xc yc x y : ℤ) : List (ℤ × ℤ) :=
  [(xc + x, yc + y), (xc - x, yc + y),
   (xc + x, yc - y), (xc - x, yc - y),
   (xc + y, yc + x), (xc - y, yc + x),
   (xc + y, yc - x), (xc - y, yc - x)]

/-- The `while x <= y` loop of `midpoint_circle`.  `x` increases by one every
iteration, so `radius + 1` iterations always suffice; when the fuel runs out
the loop guard `x ≤ y` is already false and both the model and the Python
loop yield no further points. -/
def circleLoop (cx cy : ℤ) : ℕ → ℤ → ℤ → ℤ → List (ℤ × ℤ)
  | 0, _, _, _ => []
  | fuel+1, x, y, d =>
    if x ≤ y then
      addSymmetric cx cy x y ++
        circleLoop cx cy fuel (x + 1)
          (if d < 0 then y else y - 1)
          (if d < 0 then d + 2 * x + 3 else d + 2 * (x - y) + 5)
    else []

/-- `Algorithms.midpoint_circle`: midpoint circle algorithm, returning the
list of `(x, y)` pixel coordinates. -/
def midpoint_circle (cx cy radius : ℤ) : List (ℤ × ℤ) :=
  circleLoop cx cy (radius + 1).toNat 0 radius (1 - radius)

/- ------------------------------------------------------------------ -/
/- `Algorithms.bezier_curve` (src/main.py lines 86-102).              -/
/- ------------------------------------------------------------------ -/

/-- The per-sample computation of `bezier_curve` (lines 91-99): the value of
the cubic blend at parameter `t`, exactly as written in the source. -/
def bezier_point (p0 p1 p2 p3 : ℚ × ℚ) (t : ℚ) : ℚ × ℚ :=
  let t2 := t * t
  let t3 := t2 * t
  let mt := 1 - t
  let mt2 := mt * mt
  let mt3 := mt2 * mt
  (mt3 * p0.1 + 3 * mt2 * t * p1.1 + 3 * mt * t2 * p2.1 + t3 * p3.1,
   mt3 * p0.2 + 3 * mt2 * t * p1.2 + 3 * mt * t2 * p2.2 + t3 * p3.2)

/-- `Algorithms.bezier_curve`: samples the cubic at `t = i / steps` for
`i = 0, …, steps` and truncates each coordinate with `int(...)`. -/
def bezier_curve (p0 p1 p2 p3 : ℚ × ℚ) (steps : ℕ) : List (ℤ × ℤ) :=
  (List.range (steps + 1)).map (fun i : ℕ =>
    let t : ℚ := (i : ℚ) / (steps : ℚ)
    let p := bezier_point p0 p1 p2 p3 t
    (pytrunc p.1, pytrunc p.2))

/- ------------------------------------------------------------------ -/
/- `Algorithms.dot_matrix_char` (src/main.py lines 104-152).          -/
/- ------------------------------------------------------------------ -/

/-- The hardcoded 8x8 pattern for `'A'`. -/
def patternA : List String :=
  ["  ████  ",
   " ██  ██ ",
   "██    ██",
   "████████",
   "██    ██",
   "██    ██",
   "██    ██",
   "        "]

/-- The hardcoded 8x8 pattern for `'B'`. -/
def patternB : List String :=
  ["███████ ",
   "██    ██",
   "██    ██",
   "███████ ",
   "██    ██",
   "██    ██",
   "███████ ",
   "        "]

/-- The hardcoded 8x8 pattern for `'C'`. -/
def patternC : List String :=
  [" ██████ ",
   "██    ██",
   "██      ",
   "██      ",
   "██      ",
   "██    ██",
   " ██████ ",
   "        "]

/-- `patterns.get(char.upper(), patterns['A'])`: look up the glyph table,
falling back to the `'A'` pattern for unknown characters. -/
def glyphPattern (c : Char) : List String :=
  if c.toUpper = 'A' then patternA
  else if c.toUpper = 'B' then patternB
  else if c.toUpper = 'C' then patternC
  else patternA

/-- `Algorithms.dot_matrix_char`: expand each "on" cell of the 8x8 glyph into
a `scale × scale` block of pixels.  The enumeration order (rows, then
columns, then `dy`, then `dx`) matches the Python nesting. -/
def dot_matrix_char (c : Char) (x y : ℤ) (scale : ℕ) : List (ℤ × ℤ) :=
  (glyphPattern c).enum.flatMap (fun row =>
    row.2.toList.enum.flatMap (fun px =>
      if px.2 = '█' then
        (List.range scale).flatMap (fun dy =>
          (List.range scale).map (fun dx =>
            (x + (px.1 * scale + dx : ℕ), y + (row.1 * scale + dy : ℕ))))
      else []))

/- ------------------------------------------------------------------ -/
/- `Algorithms.scanline_fill` (src/main.py lines 154-190).            -/
/- ------------------------------------------------------------------ -/

/-- Python `range(a, b + 1)` over integers. -/
def pyIntRange (a b : ℤ) : List ℤ :=
  (List.range (b + 1 - a).toNat).map (fun k : ℕ => a + (k : ℤ))

/-- Python `min(...)` over a list of rationals (left fold of `min` over the
first element and the rest; the default is irrelevant because callers pass
nonempty lists). -/
def listMin : List ℚ → ℚ
  | [] => 0
  | a :: t => t.foldl min a

/-- Python `max(...)` over a list of rationals. -/
def listMax : List ℚ → ℚ
  | [] => 0
  | a :: t => t.foldl max a

/-- The polygon's edges: `vertices[i]` paired with `vertices[(i+1) % n]`. -/
def edgeRing (vertices : List (ℚ × ℚ)) : List ((ℚ × ℚ) × (ℚ × ℚ)) :=
  vertices.zip (vertices.rotate 1)

/-- The inner edge scan of `scanline_fill` for one scanline `y`: horizontal
edges are skipped, edges whose `y`-range does not contain `y` are skipped,
and the truncated interpolated x-intersection is collected otherwise. -/
def scanIntersections (vertices : List (ℚ × ℚ)) (y : ℤ) : List ℤ :=
  (edgeRing vertices).filterMap (fun e =>
    if e.1.2 = e.2.2 then none
    else if (y : ℚ) < min e.1.2 e.2.2 ∨ max e.1.2 e.2.2 < (y : ℚ) then none
    else some (pytrunc (e.1.1 + ((y : ℚ) - e.1.2) * (e.2.1 - e.1.1) / (e.2.2 - e.1.2))))

/-- `for i in range(0, len(intersections) - 1, 2)`: consecutive pairs
`(xs[0], xs[1]), (xs[2], xs[3]), …`; a trailing unpaired element is dropped. -/
def fillPairs : List ℤ → List (ℤ × ℤ)
  | a :: b :: rest => (a, b) :: fillPairs rest
  | _ => []

/-- `Algorithms.scanline_fill`: even-odd scanline polygon fill, with the
scanline range clipped to `[bbox.ymin, bbox.ymax]` and each span clamped to
`[bbox.xmin, bbox.xmax]`.  Python's `intersections.sort()` is modelled by
insertion sort (both produce the ascending reordering of the collected
intersections). -/
def scanline_fill (vertices : List (ℚ × ℚ)) (bbox : ℤ × ℤ × ℤ × ℤ) : List (ℤ × ℤ) :=
  if vertices.length < 3 then []
  else
    let ys := vertices.map Prod.snd
    let minY := max (pytrunc (listMin ys)) bbox.2.1
    let maxY := min (pytrunc (listMax ys)) bbox.2.2.2
    (pyIntRange minY maxY).flatMap (fun y =>
      let inters := (scanIntersections vertices y).insertionSort (· ≤ ·)
      (fillPairs inters).flatMap (fun pr =>
        (pyIntRange (max pr.1 bbox.1) (min pr.2 bbox.2.2.1)).map (fun x => (x, y))))

/- ------------------------------------------------------------------ -/
/- `Algorithms.cohen_sutherland_clip` (src/main.py lines 192-253).    -/
/- ------------------------------------------------------------------ -/

/-- The four outcode bits `LEFT`, `RIGHT`, `BOTTOM`, `TOP`.  The Python code
stores them as disjoint bits of an integer; the record of four flags is an
exact model of the values that occur. -/
structure OutCode where
  left : Bool
  right : Bool
  bottom : Bool
  top : Bool
deriving DecidableEq

/-- `code == 0` (the point is inside). -/
def OutCode.isZero (c : OutCode) : Bool :=
  !c.left && !c.right && !c.bottom && !c.top

/-- Bitwise `&` of two outcodes. -/
def OutCode.and (c d : OutCode) : OutCode :=
  ⟨c.left && d.left, c.right && d.right, c.bottom && d.bottom, c.top && d.top⟩

/-- `compute_code` (lines 203-213): the region test, with the `elif`
priority of the source (`LEFT` beats `RIGHT`, `BOTTOM` beats `TOP`). -/
def compute_code (xmin ymin xmax ymax x y : ℚ) : OutCode :=
  { left := decide (x < xmin),
    right := decide (¬x < xmin ∧ xmax < x),
    bottom := decide (y < ymin),
    top := decide (¬y < ymin ∧ ymax < y) }

/-- `code_out = code0 if code0 != 0 else code1`. -/
def pickOut (c0 c1 : OutCode) : OutCode :=
  if c0.isZero = false then c0 else c1

/-- The `while True` loop of `cohen_sutherland_clip`.  Each iteration either
accepts, trivially rejects, or replaces the outside endpoint by its
intersection with the boundary its outcode flags first in the priority order
TOP, BOTTOM, RIGHT, LEFT, recomputing that endpoint's outcode.  The final
`else (x0, y0)` branch is unreachable: the chosen outcode always has at least
one flag set.  The fuel passed by `cohen_sutherland_clip` dominates the
number of iterations of the Python loop (each clip moves an endpoint onto
one of the at most four fixed boundary-line intersection points of the
carrier line, monotonically along the segment). -/
def csLoop (xmin ymin xmax ymax : ℚ) :
    ℕ → ℚ → ℚ → ℚ → ℚ → OutCode → OutCode → Option (ℚ × ℚ × ℚ × ℚ)
  | 0, _, _, _, _, _, _ => none
  | fuel+1, x0, y0, x1, y1, code0, code1 =>
    if code0.isZero = true ∧ code1.isZero = true then
      some (x0, y0, x1, y1)
    else if (OutCode.and code0 code1).isZero = false then
      none
    else
      let codeOut := pickOut code0 code1
      let p : ℚ × ℚ :=
        if codeOut.top = true then
          (x0 + (x1 - x0) * (ymax - y0) / (y1 - y0), ymax)
        else if codeOut.bottom = true then
          (x0 + (x1 - x0) * (ymin - y0) / (y1 - y0), ymin)
        else if codeOut.right = true then
          (xmax, y0 + (y1 - y0) * (xmax - x0) / (x1 - x0))
        else if codeOut.left = true then
          (xmin, y0 + (y1 - y0) * (xmin - x0) / (x1 - x0))
        else (x0, y0)
      if codeOut = code0 then
        csLoop xmin ymin xmax ymax fuel p.1 p.2 x1 y1
          (compute_code xmin ymin xmax ymax p.1 p.2) code1
      else
        csLoop xmin ymin xmax ymax fuel x0 y0 p.1 p.2
          code0 (compute_code xmin ymin xmax ymax p.1 p.2)

/-- `Algorithms.cohen_sutherland_clip`: returns the clipped segment with
coordinates truncated by `int(...)`, or `None`. -/
def cohen_sutherland_clip (x0 y0 x1 y1 : ℚ) (clip_rect : ℚ × ℚ × ℚ × ℚ) :
    Option (ℤ × ℤ × ℤ × ℤ) :=
  match clip_rect with
  | (xmin, ymin, xmax, ymax) =>
    match csLoop xmin ymin xmax ymax 10 x0 y0 x1 y1
        (compute_code xmin ymin xmax ymax x0 y0)
        (compute_code xmin ymin xmax ymax x1 y1) with
    | some (a, b, c, d) => some (pytrunc a, pytrunc b, pytrunc c, pytrunc d)
    | none => none

/- ------------------------------------------------------------------ -/
/- Shape records and the transformation functions                     -/
/- (src/main.py lines 260-297, 339-389).                              -/
/- ------------------------------------------------------------------ -/

/-- A shape dictionary.  Each field is `Option`-valued: `none` models the
key being absent from the Python dict. -/
structure Shape where
  type : Option String
  points : Option (List (ℚ × ℚ))
  color : Option String
  char : Option Char
  scale : Option ℕ
  filled : Option Bool
deriving DecidableEq

/-- `translate_shape`: offsets every point when the `'points'` key is
present; otherwise the shape is untouched. -/
def translate_shape (s : Shape) (dx dy : ℚ) : Shape :=
  { s with points := s.points.map (fun pts =>
      pts.map (fun p => (p.1 + dx, p.2 + dy))) }

/-- `rotate_shape`: rotate every point about `(cx, cy)`.  The values
`math.cos(angle)` and `math.sin(angle)` computed on lines 268-269 are
abstracted as the parameters `cosA` and `sinA`. -/
def rotate_shape (s : Shape) (cosA sinA cx cy : ℚ) : Shape :=
  { s with points := s.points.map (fun pts =>
      pts.map (fun p =>
        ((p.1 - cx) * cosA - (p.2 - cy) * sinA + cx,
         (p.1 - cx) * sinA + (p.2 - cy) * cosA + cy))) }

/-- `scale_shape`: scale every point about `(cx, cy)`. -/
def scale_shape (s : Shape) (factor cx cy : ℚ) : Shape :=
  { s with points := s.points.map (fun pts =>
      pts.map (fun p =>
        ((p.1 - cx) * factor + cx, (p.2 - cy) * factor + cy))) }

/-- The circle radius of `render_shape` (line 355):
`int(math.sqrt((ex-cx)**2 + (ey-cy)**2))`, modelled by the exact integer
square root. -/
def circleRadius (cx cy ex ey : ℤ) : ℤ :=
  (Nat.sqrt ((ex - cx) ^ 2 + (ey - cy) ^ 2).toNat : ℕ)

/-- `PixelCanvas.render_shape` (lines 339-389), restricted to the pixel list
it computes (the subsequent `put_pixels` call and the on-screen buffer are
external collaborators).  `w` and `h` are the canvas width and height used
for the polygon fill bbox. -/
def render_shape_pixels (w h : ℤ) (s : Shape) : List (ℤ × ℤ) :=
  let pts := s.points.getD []
  if s.type = some "line" ∧ 2 ≤ pts.length then
    match pts with
    | p0 :: p1 :: _ =>
      bresenham_line (pytrunc p0.1) (pytrunc p0.2) (pytrunc p1.1) (pytrunc p1.2)
    | _ => []
  else if s.type = some "circle" ∧ 2 ≤ pts.length then
    match pts with
    | p0 :: p1 :: _ =>
      midpoint_circle (pytrunc p0.1) (pytrunc p0.2)
        (circleRadius (pytrunc p0.1) (pytrunc p0.2) (pytrunc p1.1) (pytrunc p1.2))
    | _ => []
  else if s.type = some "bezier" ∧ 4 ≤ pts.length then
    match pts with
    | p0 :: p1 :: p2 :: p3 :: _ =>
      let cps := bezier_curve p0 p1 p2 p3 100
      (cps.zip cps.tail).flatMap (fun pq =>
        bresenham_line pq.1.1 pq.1.2 pq.2.1 pq.2.2)
    | _ => []
  else if s.type = some "char" ∧ 1 ≤ pts.length then
    match pts with
    | p0 :: _ =>
      dot_matrix_char (s.char.getD 'A') (pytrunc p0.1) (pytrunc p0.2) (s.scale.getD 2)
    | _ => []
  else if s.type = some "polygon" ∧ 3 ≤ pts.length then
    (pts.zip (pts.rotate 1)).flatMap (fun e =>
      bresenham_line (pytrunc e.1.1) (pytrunc e.1.2) (pytrunc e.2.1) (pytrunc e.2.2)) ++
    (if s.filled.getD false = true then scanline_fill pts (0, 0, w, h) else [])
  else []

/- ------------------------------------------------------------------ -/
/- Helper lemmas                                                      -/
/- ------------------------------------------------------------------ -/

lemma pytrunc_intCast (n : ℤ) : pytrunc (n : ℚ) = n := by
  unfold pytrunc
  split <;> simp

lemma le_pytrunc {m : ℤ} {q : ℚ} (h : (m : ℚ) ≤ q) : m ≤ pytrunc q := by
  unfold pytrunc
  by_cases h0 : 0 ≤ q
  · rw [if_pos h0]
    exact Int.le_floor.mpr h
  · rw [if_neg h0]
    have := Int.le_ceil q
    exact_mod_cast le_trans h this

lemma pytrunc_le {M : ℤ} {q : ℚ} (h : q ≤ (M : ℚ)) : pytrunc q ≤ M := by
  unfold pytrunc
  by_cases h0 : 0 ≤ q
  · rw [if_pos h0]
    have := Int.floor_le q
    exact_mod_cast le_trans this h
  · rw [if_neg h0]
    exact Int.ceil_le.mpr h

/-- Invariant-based correctness of the Bresenham loop: starting from a state
whose error accumulator satisfies the standard invariant and with enough
fuel, the produced list starts at the current pixel, ends at the target
pixel, and is 8-connected. -/
lemma bresLoop_main (x1 y1 dx dy sx sy : ℤ)
    (hsx : sx = 1 ∨ sx = -1) (hsy : sy = 1 ∨ sy = -1) :
    ∀ (fuel : ℕ) (x y err : ℤ),
      0 ≤ sx * (x1 - x) → sx * (x1 - x) ≤ dx →
      0 ≤ sy * (y1 - y) → sy * (y1 - y) ≤ dy →
      err = dx - dy - (dx - sx * (x1 - x)) * dy + (dy - sy * (y1 - y)) * dx →
      (sx * (x1 - x) + sy * (y1 - y)).toNat < fuel →
      (bresLoop x1 y1 dx dy sx sy fuel x y err).head? = some (x, y) ∧
      (bresLoop x1 y1 dx dy sx sy fuel x y err).getLast? = some (x1, y1) ∧
      List.Chain' bresAdj (bresLoop x1 y1 dx dy sx sy fuel x y err) := by
  intro fuel
  induction fuel with
  | zero =>
    intro x y err _ _ _ _ _ hf
    exact absurd hf (Nat.not_lt_zero _)
  | succ n ih =>
    intro x y err hu0 hud hv0 hvd herr hf
    have hsx2 : sx * sx = 1 := by rcases hsx with rfl | rfl <;> norm_num
    have hsy2 : sy * sy = 1 := by rcases hsy with rfl | rfl <;> norm_num
    by_cases hend : x = x1 ∧ y = y1
    · obtain ⟨rfl, rfl⟩ := hend
      simp [bresLoop, List.chain'_singleton]
    · set u := sx * (x1 - x) with hu_def
      set v := sy * (y1 - y) with hv_def
      have hdx0 : 0 ≤ dx := le_trans hu0 hud
      have hdy0 : 0 ≤ dy := le_trans hv0 hvd
      have hne : u ≠ 0 ∨ v ≠ 0 := by
        by_contra h
        push_neg at h
        obtain ⟨h1, h2⟩ := h
        exact hend ⟨by rcases hsx with rfl | rfl <;> omega,
                    by rcases hsy with rfl | rfl <;> omega⟩
      have hA : u = 0 → 2 * err ≤ -dy ∧ 2 * err < dx := by
        intro h0
        have hv1 : 1 ≤ v := by
          rcases hne with h | h
          · exact absurd h0 h
          · omega
        have hdy1 : 1 ≤ dy := le_trans hv1 hvd
        rw [h0] at herr
        have hkey : 0 ≤ dx * (v - 1) := mul_nonneg hdx0 (by omega)
        constructor
        · nlinarith [hkey]
        · nlinarith [hkey]
      have hB : v = 0 → dx ≤ 2 * err ∧ -dy < 2 * err := by
        intro h0
        have hu1 : 1 ≤ u := by
          rcases hne with h | h
          · omega
          · exact absurd h0 h
        have hdx1 : 1 ≤ dx := le_trans hu1 hud
        rw [h0] at herr
        have hkey : 0 ≤ dy * (u - 1) := mul_nonneg hdy0 (by omega)
        constructor
        · nlinarith [hkey]
        · nlinarith [hkey]
      by_cases hcx : 2 * err > -dy <;> by_cases hcy : 2 * err < dx
      · -- both coordinates step
        have hu1 : 1 ≤ u := by
          rcases eq_or_lt_of_le hu0 with h0 | h0
          · exact absurd hcx (not_lt.mpr (hA h0.symm).1)
          · omega
        have hv1 : 1 ≤ v := by
          rcases eq_or_lt_of_le hv0 with h0 | h0
          · exact absurd hcy (not_lt.mpr (hB h0.symm).1)
          · omega
        have hu' : sx * (x1 - (x + sx)) = u - 1 := by
          linear_combination -hu_def - hsx2
        have hv' : sy * (y1 - (y + sy)) = v - 1 := by
          linear_combination -hv_def - hsy2
        have hstep : bresLoop x1 y1 dx dy sx sy (n + 1) x y err =
            (x, y) :: bresLoop x1 y1 dx dy sx sy n (x + sx) (y + sy) (err - dy + dx) := by
          simp only [bresLoop, if_neg hend, if_pos hcx, if_pos hcy]
        have H := ih (x + sx) (y + sy) (err - dy + dx)
          (by rw [hu']; omega) (by rw [hu']; omega)
          (by rw [hv']; omega) (by rw [hv']; omega)
          (by rw [hu', hv']; linear_combination herr)
          (by rw [hu', hv']; omega)
        obtain ⟨Hh, Hl, Hc⟩ := H
        rw [hstep]
        refine ⟨rfl, ?_, ?_⟩
        · cases hL : bresLoop x1 y1 dx dy sx sy n (x + sx) (y + sy) (err - dy + dx) with
          | nil => rw [hL] at Hh; exact absurd Hh (by simp)
          | cons a t =>
            rw [hL] at Hl
            rw [List.getLast?_cons_cons]
            exact Hl
        · refine List.chain'_cons'.mpr ⟨?_, Hc⟩
          intro z hz
          rw [Hh] at hz
          simp only [Option.mem_def, Option.some.injEq] at hz
          subst hz
          constructor
          · show |x + sx - x| ≤ 1
            have h : x + sx - x = sx := by ring
            rw [h]; rcases hsx with rfl | rfl <;> norm_num
          · show |y + sy - y| ≤ 1
            have h : y + sy - y = sy := by ring
            rw [h]; rcases hsy with rfl | rfl <;> norm_num
      · -- only x steps
        have hu1 : 1 ≤ u := by
          rcases eq_or_lt_of_le hu0 with h0 | h0
          · exact absurd hcx (not_lt.mpr (hA h0.symm).1)
          · omega
        have hu' : sx * (x1 - (x + sx)) = u - 1 := by
          linear_combination -hu_def - hsx2
        have hstep : bresLoop x1 y1 dx dy sx sy (n + 1) x y err =
            (x, y) :: bresLoop x1 y1 dx dy sx sy n (x + sx) y (err - dy + 0) := by
          simp only [bresLoop, if_neg hend, if_pos hcx, if_neg hcy]
        have H := ih (x + sx) y (err - dy + 0)
          (by rw [hu']; omega) (by rw [hu']; omega) hv0 hvd
          (by rw [hu']; linear_combination herr)
          (by rw [hu']; omega)
        obtain ⟨Hh, Hl, Hc⟩ := H
        rw [hstep]
        refine ⟨rfl, ?_, ?_⟩
        · cases hL : bresLoop x1 y1 dx dy sx sy n (x + sx) y (err - dy + 0) with
          | nil => rw [hL] at Hh; exact absurd Hh (by simp)
          | cons a t =>
            rw [hL] at Hl
            rw [List.getLast?_cons_cons]
            exact Hl
        · refine List.chain'_cons'.mpr ⟨?_, Hc⟩
          intro z hz
          rw [Hh] at hz
          simp only [Option.mem_def, Option.some.injEq] at hz
          subst hz
          constructor
          · show |x + sx - x| ≤ 1
            have h : x + sx - x = sx := by ring
            rw [h]; rcases hsx with rfl | rfl <;> norm_num
          · show |y - y| ≤ 1
            simp
      · -- only y steps
        have hv1 : 1 ≤ v := by
          rcases eq_or_lt_of_le hv0 with h0 | h0
          · exact absurd hcy (not_lt.mpr (hB h0.symm).1)
          · omega
        have hv' : sy * (y1 - (y + sy)) = v - 1 := by
          linear_combination -hv_def - hsy2
        have hstep : bresLoop x1 y1 dx dy sx sy (n + 1) x y err =
            (x, y) :: bresLoop x1 y1 dx dy sx sy n x (y + sy) (err + dx) := by
          simp only [bresLoop, if_neg hend, if_neg hcx, if_pos hcy]
        have H := ih x (y + sy) (err + dx)
          hu0 hud (by rw [hv']; omega) (by rw [hv']; omega)
          (by rw [hv']; linear_combination herr)
          (by rw [hv']; omega)
        obtain ⟨Hh, Hl, Hc⟩ := H
        rw [hstep]
        refine ⟨rfl, ?_, ?_⟩
        · cases hL : bresLoop x1 y1 dx dy sx sy n x (y + sy) (err + dx) with
          | nil => rw [hL] at Hh; exact absurd Hh (by simp)
          | cons a t =>
            rw [hL] at Hl
            rw [List.getLast?_cons_cons]
            exact Hl
        · refine List.chain'_cons'.mpr ⟨?_, Hc⟩
          intro z hz
          rw [Hh] at hz
          simp only [Option.mem_def, Option.some.injEq] at hz
          subst hz
          constructor
          · show |x - x| ≤ 1
            simp
          · show |y + sy - y| ≤ 1
            have h : y + sy - y = sy := by ring
            rw [h]; rcases hsy with rfl | rfl <;> norm_num
      · -- neither steps: impossible
        exfalso
        rcases eq_or_lt_of_le hu0 with h0 | h0
        · exact hcy (hA h0.symm).2
        · rcases eq_or_lt_of_le hv0 with h1 | h1
          · exact hcx (hB h1.symm).2
          · have hdx1 : 1 ≤ u := by omega
            have hdy1 : 1 ≤ v := by omega
            have := le_trans hdx1 hud
            have := le_trans hdy1 hvd
            omega

/-- Top-level endpoints/connectivity facts for `bresenham_line`, obtained by
instantiating `bresLoop_main` at the initial state. -/
lemma bresenham_line_main (x0 y0 x1 y1 : ℤ) :
    (bresenham_line x0 y0 x1 y1).head? = some (x0, y0) ∧
    (bresenham_line x0 y0 x1 y1).getLast? = some (x1, y1) ∧
    List.Chain' bresAdj (bresenham_line x0 y0 x1 y1) := by
  unfold bresenham_line
  by_cases hx : x0 < x1 <;> by_cases hy : y0 < y1
  · rw [abs_of_nonneg (by omega : (0:ℤ) ≤ x1 - x0),
      abs_of_nonneg (by omega : (0:ℤ) ≤ y1 - y0), if_pos hx, if_pos hy]
    exact bresLoop_main x1 y1 (x1 - x0) (y1 - y0) 1 1 (Or.inl rfl) (Or.inl rfl)
      _ x0 y0 _ (by omega) (by omega) (by omega) (by omega) (by ring) (by omega)
  · rw [abs_of_nonneg (by omega : (0:ℤ) ≤ x1 - x0),
      abs_of_nonpos (by omega : y1 - y0 ≤ 0), if_pos hx, if_neg hy]
    exact bresLoop_main x1 y1 (x1 - x0) (-(y1 - y0)) 1 (-1) (Or.inl rfl) (Or.inr rfl)
      _ x0 y0 _ (by omega) (by omega) (by omega) (by omega) (by ring) (by omega)
  · rw [abs_of_nonpos (by omega : x1 - x0 ≤ 0),
      abs_of_nonneg (by omega : (0:ℤ) ≤ y1 - y0), if_neg hx, if_pos hy]
    exact bresLoop_main x1 y1 (-(x1 - x0)) (y1 - y0) (-1) 1 (Or.inr rfl) (Or.inl rfl)
      _ x0 y0 _ (by omega) (by omega) (by omega) (by omega) (by ring) (by omega)
  · rw [abs_of_nonpos (by omega : x1 - x0 ≤ 0),
      abs_of_nonpos (by omega : y1 - y0 ≤ 0), if_neg hx, if_neg hy]
    exact bresLoop_main x1 y1 (-(x1 - x0)) (-(y1 - y0)) (-1) (-1) (Or.inr rfl) (Or.inr rfl)
      _ x0 y0 _ (by omega) (by omega) (by omega) (by omega) (by ring) (by omega)

lemma addSymmetric_reflectY (cx cy x y : ℤ) (p : ℤ × ℤ) :
    p ∈ addSymmetric cx cy x y ↔ (p.1, 2 * cy - p.2) ∈ addSymmetric cx cy x y := by
  obtain ⟨a, b⟩ := p
  simp only [addSymmetric, List.mem_cons, List.not_mem_nil, or_false, Prod.mk.injEq]
  constructor
  · rintro (⟨rfl, rfl⟩ | ⟨rfl, rfl⟩ | ⟨rfl, rfl⟩ | ⟨rfl, rfl⟩ |
            ⟨rfl, rfl⟩ | ⟨rfl, rfl⟩ | ⟨rfl, rfl⟩ | ⟨rfl, rfl⟩)
    · exact Or.inr (Or.inr (Or.inl ⟨rfl, by ring⟩))
    · exact Or.inr (Or.inr (Or.inr (Or.inl ⟨rfl, by ring⟩)))
    · exact Or.inl ⟨rfl, by ring⟩
    · exact Or.inr (Or.inl ⟨rfl, by ring⟩)
    · exact Or.inr (Or.inr (Or.inr (Or.inr (Or.inr (Or.inr (Or.inl ⟨rfl, by ring⟩))))))
    · exact Or.inr (Or.inr (Or.inr (Or.inr (Or.inr (Or.inr (Or.inr ⟨rfl, by ring⟩))))))
    · exact Or.inr (Or.inr (Or.inr (Or.inr (Or.inl ⟨rfl, by ring⟩))))
    · exact Or.inr (Or.inr (Or.inr (Or.inr (Or.inr (Or.inl ⟨rfl, by ring⟩)))))
  · rintro (⟨rfl, h2⟩ | ⟨rfl, h2⟩ | ⟨rfl, h2⟩ | ⟨rfl, h2⟩ |
            ⟨rfl, h2⟩ | ⟨rfl, h2⟩ | ⟨rfl, h2⟩ | ⟨rfl, h2⟩)
    · exact Or.inr (Or.inr (Or.inl ⟨rfl, by omega⟩))
    · exact Or.inr (Or.inr (Or.inr (Or.inl ⟨rfl, by omega⟩)))
    · exact Or.inl ⟨rfl, by omega⟩
    · exact Or.inr (Or.inl ⟨rfl, by omega⟩)
    · exact Or.inr (Or.inr (Or.inr (Or.inr (Or.inr (Or.inr (Or.inl ⟨rfl, by omega⟩))))))
    · exact Or.inr (Or.inr (Or.inr (Or.inr (Or.inr (Or.inr (Or.inr ⟨rfl, by omega⟩))))))
    · exact Or.inr (Or.inr (Or.inr (Or.inr (Or.inl ⟨rfl, by omega⟩))))
    · exact Or.inr (Or.inr (Or.inr (Or.inr (Or.inr (Or.inl ⟨rfl, by omega⟩)))))

lemma addSymmetric_reflectX (cx cy x y : ℤ) (p : ℤ × ℤ) :
    p ∈ addSymmetric cx cy x y ↔ (2 * cx - p.1, p.2) ∈ addSymmetric cx cy x y := by
  obtain ⟨a, b⟩ := p
  simp only [addSymmetric, List.mem_cons, List.not_mem_nil, or_false, Prod.mk.injEq]
  constructor
  · rintro (⟨rfl, rfl⟩ | ⟨rfl, rfl⟩ | ⟨rfl, rfl⟩ | ⟨rfl, rfl⟩ |
            ⟨rfl, rfl⟩ | ⟨rfl, rfl⟩ | ⟨rfl, rfl⟩ | ⟨rfl, rfl⟩)
    · exact Or.inr (Or.inl ⟨by ring, rfl⟩)
    · exact Or.inl ⟨by ring, rfl⟩
    · exact Or.inr (Or.inr (Or.inr (Or.inl ⟨by ring, rfl⟩)))
    · exact Or.inr (Or.inr (Or.inl ⟨by ring, rfl⟩))
    · exact Or.inr (Or.inr (Or.inr (Or.inr (Or.inr (Or.inl ⟨by ring, rfl⟩)))))
    · exact Or.inr (Or.inr (Or.inr (Or.inr (Or.inl ⟨by ring, rfl⟩))))
    · exact Or.inr (Or.inr (Or.inr (Or.inr (Or.inr (Or.inr (Or.inr ⟨by ring, rfl⟩))))))
    · exact Or.inr (Or.inr (Or.inr (Or.inr (Or.inr (Or.inr (Or.inl ⟨by ring, rfl⟩))))))
  · rintro (⟨h1, rfl⟩ | ⟨h1, rfl⟩ | ⟨h1, rfl⟩ | ⟨h1, rfl⟩ |
            ⟨h1, rfl⟩ | ⟨h1, rfl⟩ | ⟨h1, rfl⟩ | ⟨h1, rfl⟩)
    · exact Or.inr (Or.inl ⟨by omega, rfl⟩)
    · exact Or.inl ⟨by omega, rfl⟩
    · exact Or.inr (Or.inr (Or.inr (Or.inl ⟨by omega, rfl⟩)))
    · exact Or.inr (Or.inr (Or.inl ⟨by omega, rfl⟩))
    · exact Or.inr (Or.inr (Or.inr (Or.inr (Or.inr (Or.inl ⟨by omega, rfl⟩)))))
    · exact Or.inr (Or.inr (Or.inr (Or.inr (Or.inl ⟨by omega, rfl⟩))))
    · exact Or.inr (Or.inr (Or.inr (Or.inr (Or.inr (Or.inr (Or.inr ⟨by omega, rfl⟩))))))
    · exact Or.inr (Or.inr (Or.inr (Or.inr (Or.inr (Or.inr (Or.inl ⟨by omega, rfl⟩))))))

lemma circleLoop_reflectY (cx cy : ℤ) :
    ∀ (fuel : ℕ) (x y d : ℤ) (p : ℤ × ℤ),
      p ∈ circleLoop cx cy fuel x y d ↔ (p.1, 2 * cy - p.2) ∈ circleLoop cx cy fuel x y d := by
  intro fuel
  induction fuel with
  | zero => intro x y d p; simp [circleLoop]
  | succ n ih =>
    intro x y d p
    by_cases hxy : x ≤ y
    · simp only [circleLoop, if_pos hxy, List.mem_append]
      exact or_congr (addSymmetric_reflectY cx cy x y p) (ih _ _ _ p)
    · simp [circleLoop, hxy]

lemma circleLoop_reflectX (cx cy : ℤ) :
    ∀ (fuel : ℕ) (x y d : ℤ) (p : ℤ × ℤ),
      p ∈ circleLoop cx cy fuel x y d ↔ (2 * cx - p.1, p.2) ∈ circleLoop cx cy fuel x y d := by
  intro fuel
  induction fuel with
  | zero => intro x y d p; simp [circleLoop]
  | succ n ih =>
    intro x y d p
    by_cases hxy : x ≤ y
    · simp only [circleLoop, if_pos hxy, List.mem_append]
      exact or_congr (addSymmetric_reflectX cx cy x y p) (ih _ _ _ p)
    · simp [circleLoop, hxy]

lemma mem_pyIntRange {a b z : ℤ} : z ∈ pyIntRange a b ↔ a ≤ z ∧ z ≤ b := by
  simp only [pyIntRange, List.mem_map, List.mem_range]
  constructor
  · rintro ⟨k, hk, rfl⟩; omega
  · intro h; exact ⟨(z - a).toNat, by omega, by omega⟩

lemma foldl_min_le_init : ∀ (l : List ℚ) (init : ℚ), l.foldl min init ≤ init
  | [], _ => le_refl _
  | b :: t, init => le_trans (foldl_min_le_init t (min init b)) (min_le_left _ _)

lemma foldl_min_le_mem : ∀ (l : List ℚ) (init a : ℚ), a ∈ l → l.foldl min init ≤ a
  | [], _, a, h => absurd h (List.not_mem_nil a)
  | b :: t, init, a, h => by
    rcases List.mem_cons.mp h with rfl | h'
    · exact le_trans (foldl_min_le_init t (min init a)) (min_le_right _ _)
    · exact foldl_min_le_mem t (min init b) a h'

lemma listMin_le {l : List ℚ} {a : ℚ} (h : a ∈ l) : listMin l ≤ a := by
  cases l with
  | nil => exact absurd h (List.not_mem_nil a)
  | cons b t =>
    rcases List.mem_cons.mp h with rfl | h'
    · exact foldl_min_le_init t a
    · exact foldl_min_le_mem t b a h'

lemma le_foldl_max_init : ∀ (l : List ℚ) (init : ℚ), init ≤ l.foldl max init
  | [], _ => le_refl _
  | b :: t, init => le_trans (le_max_left _ _) (le_foldl_max_init t (max init b))

lemma le_foldl_max_mem : ∀ (l : List ℚ) (init a : ℚ), a ∈ l → a ≤ l.foldl max init
  | [], _, a, h => absurd h (List.not_mem_nil a)
  | b :: t, init, a, h => by
    rcases List.mem_cons.mp h with rfl | h'
    · exact le_trans (le_max_right _ _) (le_foldl_max_init t (max init a))
    · exact le_foldl_max_mem t (max init b) a h'

lemma le_listMax {l : List ℚ} {a : ℚ} (h : a ∈ l) : a ≤ listMax l := by
  cases l with
  | nil => exact absurd h (List.not_mem_nil a)
  | cons b t =>
    rcases List.mem_cons.mp h with rfl | h'
    · exact le_foldl_max_init t a
    · exact le_foldl_max_mem t b a h'

lemma mem_fillPairs : ∀ (l : List ℤ) (pr : ℤ × ℤ), pr ∈ fillPairs l → pr.1 ∈ l ∧ pr.2 ∈ l
  | [], pr, h => absurd h (List.not_mem_nil pr)
  | [a], pr, h => absurd h (List.not_mem_nil pr)
  | a :: b :: rest, pr, h => by
    rcases List.mem_cons.mp h with rfl | h'
    · exact ⟨List.mem_cons_self _ _, List.mem_cons.mpr (Or.inr (List.mem_cons_self _ _))⟩
    · have hr := mem_fillPairs rest pr h'
      exact ⟨List.mem_cons.mpr (Or.inr (List.mem_cons.mpr (Or.inr hr.1))),
             List.mem_cons.mpr (Or.inr (List.mem_cons.mpr (Or.inr hr.2)))⟩

/-- Every collected intersection comes from an edge whose `y`-range contains
the scanline. -/
lemma scanIntersections_straddle {vertices : List (ℚ × ℚ)} {y : ℤ} {t : ℤ}
    (h : t ∈ scanIntersections vertices y) :
    ∃ e ∈ edgeRing vertices, min e.1.2 e.2.2 ≤ (y : ℚ) ∧ (y : ℚ) ≤ max e.1.2 e.2.2 := by
  simp only [scanIntersections, List.mem_filterMap] at h
  obtain ⟨e, he, hcond⟩ := h
  refine ⟨e, he, ?_⟩
  by_cases h1 : e.1.2 = e.2.2
  · rw [if_pos h1] at hcond; exact absurd hcond (by simp)
  · rw [if_neg h1] at hcond
    by_cases h2 : (y : ℚ) < min e.1.2 e.2.2 ∨ max e.1.2 e.2.2 < (y : ℚ)
    · rw [if_pos h2] at hcond; exact absurd hcond (by simp)
    · push_neg at h2
      exact h2

lemma edgeRing_mem {vertices : List (ℚ × ℚ)} {e : (ℚ × ℚ) × (ℚ × ℚ)}
    (h : e ∈ edgeRing vertices) : e.1 ∈ vertices ∧ e.2 ∈ vertices := by
  obtain ⟨a, b⟩ := e
  have := List.of_mem_zip h
  exact ⟨this.1, List.mem_rotate.mp this.2⟩

lemma compute_code_left_iff {xmin ymin xmax ymax x y : ℚ} :
    (compute_code xmin ymin xmax ymax x y).left = true ↔ x < xmin := by
  simp [compute_code]

lemma compute_code_right_iff {xmin ymin xmax ymax x y : ℚ} :
    (compute_code xmin ymin xmax ymax x y).right = true ↔ (¬x < xmin ∧ xmax < x) := by
  simp [compute_code]

lemma compute_code_bottom_iff {xmin ymin xmax ymax x y : ℚ} :
    (compute_code xmin ymin xmax ymax x y).bottom = true ↔ y < ymin := by
  simp [compute_code]

lemma compute_code_top_iff {xmin ymin xmax ymax x y : ℚ} :
    (compute_code xmin ymin xmax ymax x y).top = true ↔ (¬y < ymin ∧ ymax < y) := by
  simp [compute_code]

/-- A zero outcode means the point is inside the rectangle. -/
lemma compute_code_isZero {xmin ymin xmax ymax x y : ℚ}
    (h : (compute_code xmin ymin xmax ymax x y).isZero = true) :
    xmin ≤ x ∧ x ≤ xmax ∧ ymin ≤ y ∧ y ≤ ymax := by
  simp only [compute_code, OutCode.isZero, Bool.and_eq_true, Bool.not_eq_true',
    decide_eq_false_iff_not] at h
  obtain ⟨⟨⟨hl, hr⟩, hb⟩, ht⟩ := h
  refine ⟨not_lt.mp hl, ?_, not_lt.mp hb, ?_⟩
  · by_contra hc
    exact hr ⟨hl, not_le.mp hc⟩
  · by_contra hc
    exact ht ⟨hb, not_le.mp hc⟩

lemma and_isZero_of_zeros {c d : OutCode} (hc : c.isZero = true) (hd : d.isZero = true) :
    (OutCode.and c d).isZero = true := by
  cases c; cases d
  simp only [OutCode.isZero, Bool.and_eq_true, Bool.not_eq_true'] at hc hd
  simp [OutCode.and, OutCode.isZero, hc.1.1.1, hc.1.1.2, hc.1.2, hc.2,
    hd.1.1.1, hd.1.1.2, hd.1.2, hd.2]

lemma and_isZero_not_both_left {c d : OutCode} (h : (OutCode.and c d).isZero = true) :
    c.left = true → d.left = true → False := by
  intro h1 h2; cases c; cases d
  simp_all [OutCode.and, OutCode.isZero]

lemma and_isZero_not_both_right {c d : OutCode} (h : (OutCode.and c d).isZero = true) :
    c.right = true → d.right = true → False := by
  intro h1 h2; cases c; cases d
  simp_all [OutCode.and, OutCode.isZero]

lemma and_isZero_not_both_bottom {c d : OutCode} (h : (OutCode.and c d).isZero = true) :
    c.bottom = true → d.bottom = true → False := by
  intro h1 h2; cases c; cases d
  simp_all [OutCode.and, OutCode.isZero]

lemma and_isZero_not_both_top {c d : OutCode} (h : (OutCode.and c d).isZero = true) :
    c.top = true → d.top = true → False := by
  intro h1 h2; cases c; cases d
  simp_all [OutCode.and, OutCode.isZero]

/-- Whenever the clip loop accepts, both final outcodes are zero, so both
endpoints of the returned (pre-truncation) segment are inside the clip
rectangle.  The outcodes carried by the loop always equal `compute_code` of
the corresponding endpoint. -/
lemma csLoop_inside (xmin ymin xmax ymax : ℚ) :
    ∀ (fuel : ℕ) (x0 y0 x1 y1 : ℚ) (c0 c1 : OutCode),
      c0 = compute_code xmin ymin xmax ymax x0 y0 →
      c1 = compute_code xmin ymin xmax ymax x1 y1 →
      ∀ a b c d : ℚ,
        csLoop xmin ymin xmax ymax fuel x0 y0 x1 y1 c0 c1 = some (a, b, c, d) →
        xmin ≤ a ∧ a ≤ xmax ∧ ymin ≤ b ∧ b ≤ ymax ∧
        xmin ≤ c ∧ c ≤ xmax ∧ ymin ≤ d ∧ d ≤ ymax := by
  intro fuel
  induction fuel with
  | zero =>
    intro x0 y0 x1 y1 c0 c1 h0 h1 a b c d hres
    simp [csLoop] at hres
  | succ n ih =>
    intro x0 y0 x1 y1 c0 c1 h0 h1 a b c d hres
    simp only [csLoop] at hres
    by_cases hacc : c0.isZero = true ∧ c1.isZero = true
    · rw [if_pos hacc] at hres
      simp only [Option.some.injEq, Prod.mk.injEq] at hres
      obtain ⟨rfl, rfl, rfl, rfl⟩ := hres
      have hb0 := compute_code_isZero (h0 ▸ hacc.1)
      have hb1 := compute_code_isZero (h1 ▸ hacc.2)
      exact ⟨hb0.1, hb0.2.1, hb0.2.2.1, hb0.2.2.2, hb1.1, hb1.2.1, hb1.2.2.1, hb1.2.2.2⟩
    · rw [if_neg hacc] at hres
      by_cases hrej : (OutCode.and c0 c1).isZero = false
      · rw [if_pos hrej] at hres
        exact absurd hres (by simp)
      · rw [if_neg hrej] at hres
        by_cases hpick : pickOut c0 c1 = c0
        · rw [if_pos hpick] at hres
          exact ih _ _ _ _ _ _ rfl h1 a b c d hres
        · rw [if_neg hpick] at hres
          exact ih _ _ _ _ _ _ h0 rfl a b c d hres

lemma bresLoop_succ (x1 y1 dx dy sx sy : ℤ) (fuel : ℕ) (x y err : ℤ) :
    bresLoop x1 y1 dx dy sx sy (fuel + 1) x y err =
      if x = x1 ∧ y = y1 then [(x, y)] else
        (x, y) :: bresLoop x1 y1 dx dy sx sy fuel
          (if 2 * err > -dy then x + sx else x)
          (if 2 * err < dx then y + sy else y)
          ((if 2 * err > -dy then err - dy else err) + (if 2 * err < dx then dx else 0)) := rfl

lemma csLoop_accept (xmin ymin xmax ymax : ℚ) (fuel : ℕ) (x0 y0 x1 y1 : ℚ)
    (c0 c1 : OutCode) (h0 : c0.isZero = true) (h1 : c1.isZero = true) :
    csLoop xmin ymin xmax ymax (fuel + 1) x0 y0 x1 y1 c0 c1 = some (x0, y0, x1, y1) := by
  simp only [csLoop]
  rw [if_pos ⟨h0, h1⟩]

lemma csLoop_reject (xmin ymin xmax ymax : ℚ) (fuel : ℕ) (x0 y0 x1 y1 : ℚ)
    (c0 c1 : OutCode) (h : (OutCode.and c0 c1).isZero = false) :
    csLoop xmin ymin xmax ymax (fuel + 1) x0 y0 x1 y1 c0 c1 = none := by
  have hna : ¬(c0.isZero = true ∧ c1.isZero = true) := by
    rintro ⟨ha, hb⟩
    rw [and_isZero_of_zeros ha hb] at h
    exact absurd h (by simp)
  simp only [csLoop]
  rw [if_neg hna, if_pos h]

lemma cohen_sutherland_clip_eq (x0 y0 x1 y1 xmin ymin xmax ymax : ℚ) :
    cohen_sutherland_clip x0 y0 x1 y1 (xmin, ymin, xmax, ymax) =
      match csLoop xmin ymin xmax ymax 10 x0 y0 x1 y1
          (compute_code xmin ymin xmax ymax x0 y0)
          (compute_code xmin ymin xmax ymax x1 y1) with
      | some (a, b, c, d) => some (pytrunc a, pytrunc b, pytrunc c, pytrunc d)
      | none => none := rfl

/-- Claim C1: for all integer endpoints `(x0, y0)` and `(x1, y1)`,
`bresenham_line` returns an ordered sequence of integer pixels whose first
element is `(x0, y0)`, whose last element is `(x1, y1)`, and which is
8-connected (consecutive pixels differ by at most 1 in each coordinate); in
the degenerate case `x0 = x1` and `y0 = y1` the sequence is the single point
`(x0, y0)`. -/
theorem bresenham_line_spec (x0 y0 x1 y1 : ℤ) :
    (bresenham_line x0 y0 x1 y1).head? = some (x0, y0) ∧
    (bresenham_line x0 y0 x1 y1).getLast? = some (x1, y1) ∧
    List.Chain' bresAdj (bresenham_line x0 y0 x1 y1) ∧
    (x0 = x1 ∧ y0 = y1 → bresenham_line x0 y0 x1 y1 = [(x0, y0)]) := by
  refine ⟨(bresenham_line_main x0 y0 x1 y1).1, (bresenham_line_main x0 y0 x1 y1).2.1,
    (bresenham_line_main x0 y0 x1 y1).2.2, ?_⟩
  rintro ⟨rfl, rfl⟩
  simp only [bresenham_line]
  rw [bresLoop_succ, if_pos ⟨rfl, rfl⟩]

theorem bresenham_line_spec_witness :
    ((2:ℤ) = 2 ∧ (3:ℤ) = 3) ∧ bresenham_line 2 3 2 3 = [(2, 3)] :=
  ⟨⟨rfl, rfl⟩, (bresenham_line_spec 2 3 2 3).2.2.2 ⟨rfl, rfl⟩⟩

lemma mem_of_getLast?_eq {α : Type*} {l : List α} {a : α}
    (h : l.getLast? = some a) : a ∈ l := by
  have h' : a ∈ l.getLast? := by simp [h]
  obtain ⟨hne, heq⟩ := List.mem_getLast?_eq_getLast h'
  rw [heq]
  exact List.getLast_mem hne

/-- Counterexample to claim C6 as stated: the pixel sets of the two traversal
directions of the segment `(0,0)-(4,1)` differ: the run from `(0,0)` passes
through `(2,0)` while the run from `(4,1)` does not. -/
theorem bresenham_swap_counterexample :
    ((2:ℤ), (0:ℤ)) ∈ bresenham_line 0 0 4 1 ∧
    ((2:ℤ), (0:ℤ)) ∉ bresenham_line 4 1 0 0 := by
  decide

/-- Claim C6 (amended): exchanging the endpoints need not preserve the pixel
set (see the counterexample); what does hold is that both runs contain both
endpoint pixels, and the swapped run is again an 8-connected sequence from
`(x1, y1)` to `(x0, y0)`. -/
theorem bresenham_swap_endpoints (x0 y0 x1 y1 : ℤ) :
    (x0, y0) ∈ bresenham_line x0 y0 x1 y1 ∧ (x1, y1) ∈ bresenham_line x0 y0 x1 y1 ∧
    (x0, y0) ∈ bresenham_line x1 y1 x0 y0 ∧ (x1, y1) ∈ bresenham_line x1 y1 x0 y0 ∧
    (bresenham_line x1 y1 x0 y0).head? = some (x1, y1) ∧
    (bresenham_line x1 y1 x0 y0).getLast? = some (x0, y0) ∧
    List.Chain' bresAdj (bresenham_line x1 y1 x0 y0) := by
  obtain ⟨h1, h2, h3⟩ := bresenham_line_main x0 y0 x1 y1
  obtain ⟨h1', h2', h3'⟩ := bresenham_line_main x1 y1 x0 y0
  refine ⟨List.mem_of_mem_head? (by simp [h1]), mem_of_getLast?_eq h2,
    mem_of_getLast?_eq h2', List.mem_of_mem_head? (by simp [h1']), h1', h2', h3'⟩

/-- Claim C7: for every integer centre and nonnegative radius, the pixel set
of `midpoint_circle` is invariant under reflection across the horizontal
axis through the centre and across the vertical axis through the centre. -/
theorem midpoint_circle_symmetric (cx cy radius : ℤ) (h : 0 ≤ radius) (p : ℤ × ℤ) :
    (p ∈ midpoint_circle cx cy radius ↔
      (p.1, 2 * cy - p.2) ∈ midpoint_circle cx cy radius) ∧
    (p ∈ midpoint_circle cx cy radius ↔
      (2 * cx - p.1, p.2) ∈ midpoint_circle cx cy radius) :=
  ⟨circleLoop_reflectY cx cy _ 0 radius (1 - radius) p,
   circleLoop_reflectX cx cy _ 0 radius (1 - radius) p⟩

theorem midpoint_circle_symmetric_witness :
    (0:ℤ) ≤ 2 ∧
    (((2:ℤ), (0:ℤ)) ∈ midpoint_circle 0 0 2 ↔
      ((2:ℤ), 2 * 0 - (0:ℤ)) ∈ midpoint_circle 0 0 2) :=
  ⟨by decide, (midpoint_circle_symmetric 0 0 2 (by decide) (2, 0)).1⟩

/-- Claim C5: for any four control points and `steps ≥ 1`, `bezier_curve`
returns exactly `steps + 1` points; the `i`-th point is the cubic Bernstein
blend evaluated at `t = i / steps`, truncated coordinatewise; the first
point is the truncation of `P0` and the last the truncation of `P3`. -/
theorem bezier_curve_spec (p0 p1 p2 p3 : ℚ × ℚ) (steps : ℕ) (h : 1 ≤ steps) :
    (bezier_curve p0 p1 p2 p3 steps).length = steps + 1 ∧
    (∀ i : ℕ, i ≤ steps →
      (bezier_curve p0 p1 p2 p3 steps)[i]? =
        some (pytrunc ((1 - (i:ℚ)/(steps:ℚ))^3 * p0.1
                + 3 * (1 - (i:ℚ)/(steps:ℚ))^2 * ((i:ℚ)/(steps:ℚ)) * p1.1
                + 3 * (1 - (i:ℚ)/(steps:ℚ)) * ((i:ℚ)/(steps:ℚ))^2 * p2.1
                + ((i:ℚ)/(steps:ℚ))^3 * p3.1),
              pytrunc ((1 - (i:ℚ)/(steps:ℚ))^3 * p0.2
                + 3 * (1 - (i:ℚ)/(steps:ℚ))^2 * ((i:ℚ)/(steps:ℚ)) * p1.2
                + 3 * (1 - (i:ℚ)/(steps:ℚ)) * ((i:ℚ)/(steps:ℚ))^2 * p2.2
                + ((i:ℚ)/(steps:ℚ))^3 * p3.2))) ∧
    (bezier_curve p0 p1 p2 p3 steps).head? = some (pytrunc p0.1, pytrunc p0.2) ∧
    (bezier_curve p0 p1 p2 p3 steps).getLast? = some (pytrunc p3.1, pytrunc p3.2) := by
  have hs : (steps : ℚ) ≠ 0 := Nat.cast_ne_zero.mpr (by omega)
  refine ⟨by simp [bezier_curve], ?_, ?_, ?_⟩
  · intro i hi
    simp only [bezier_curve, List.getElem?_map,
      List.getElem?_range (by omega : i < steps + 1), Option.map_some']
    refine congrArg some (Prod.ext ?_ ?_) <;>
      · refine congrArg pytrunc ?_
        simp only [bezier_point]
        ring
  · simp only [bezier_curve, List.head?_map, List.range_succ_eq_map, List.head?_cons,
      Option.map_some']
    refine congrArg some (Prod.ext ?_ ?_) <;>
      · refine congrArg pytrunc ?_
        simp [bezier_point]
  · simp only [bezier_curve, List.range_succ, List.map_append, List.map_cons, List.map_nil,
      List.getLast?_concat]
    have ht : ((steps : ℕ) : ℚ) / (steps : ℚ) = 1 := div_self hs
    refine congrArg some (Prod.ext ?_ ?_) <;>
      · refine congrArg pytrunc ?_
        simp only [bezier_point, ht]
        ring

theorem bezier_curve_spec_witness :
    1 ≤ 2 ∧ (bezier_curve (0, 0) (1, 2) (3, 4) (6, 1) 2).length = 2 + 1 ∧
    (bezier_curve (0, 0) (1, 2) (3, 4) (6, 1) 2).getLast? =
      some (pytrunc 6, pytrunc 1) :=
  ⟨by norm_num,
   (bezier_curve_spec (0, 0) (1, 2) (3, 4) (6, 1) 2 (by norm_num)).1,
   (bezier_curve_spec (0, 0) (1, 2) (3, 4) (6, 1) 2 (by norm_num)).2.2.2⟩

/-- Claim C2: for integer endpoints and a normalized clip rectangle, a
segment whose two outcodes are both zero is returned unchanged, and a
segment whose outcodes share a common outside region (bitwise AND nonzero)
yields no output. -/
theorem cohen_sutherland_clip_trivial (x0 y0 x1 y1 xmin ymin xmax ymax : ℤ)
    (hx : xmin ≤ xmax) (hy : ymin ≤ ymax) :
    (((compute_code ↑xmin ↑ymin ↑xmax ↑ymax ↑x0 ↑y0).isZero = true ∧
      (compute_code ↑xmin ↑ymin ↑xmax ↑ymax ↑x1 ↑y1).isZero = true) →
      cohen_sutherland_clip ↑x0 ↑y0 ↑x1 ↑y1 ((xmin : ℚ), (ymin : ℚ), (xmax : ℚ), (ymax : ℚ)) =
        some (x0, y0, x1, y1)) ∧
    ((OutCode.and (compute_code ↑xmin ↑ymin ↑xmax ↑ymax ↑x0 ↑y0)
        (compute_code ↑xmin ↑ymin ↑xmax ↑ymax ↑x1 ↑y1)).isZero = false →
      cohen_sutherland_clip ↑x0 ↑y0 ↑x1 ↑y1 ((xmin : ℚ), (ymin : ℚ), (xmax : ℚ), (ymax : ℚ)) =
        none) := by
  constructor
  · rintro ⟨h0, h1⟩
    rw [cohen_sutherland_clip_eq, show (10:ℕ) = 9 + 1 from rfl,
      csLoop_accept (↑xmin) (↑ymin) (↑xmax) (↑ymax) 9 (↑x0) (↑y0) (↑x1) (↑y1) _ _ h0 h1]
    simp [pytrunc_intCast]
  · intro h
    rw [cohen_sutherland_clip_eq, show (10:ℕ) = 9 + 1 from rfl,
      csLoop_reject (↑xmin) (↑ymin) (↑xmax) (↑ymax) 9 (↑x0) (↑y0) (↑x1) (↑y1) _ _ h]

theorem cohen_sutherland_clip_trivial_witness :
    (0:ℤ) ≤ 10 ∧
    cohen_sutherland_clip ((1:ℤ) : ℚ) ((2:ℤ) : ℚ) ((3:ℤ) : ℚ) ((4:ℤ) : ℚ)
      (((0:ℤ) : ℚ), ((0:ℤ) : ℚ), ((10:ℤ) : ℚ), ((10:ℤ) : ℚ)) = some (1, 2, 3, 4) ∧
    cohen_sutherland_clip ((20:ℤ) : ℚ) ((20:ℤ) : ℚ) ((30:ℤ) : ℚ) ((30:ℤ) : ℚ)
      (((0:ℤ) : ℚ), ((0:ℤ) : ℚ), ((10:ℤ) : ℚ), ((10:ℤ) : ℚ)) = none := by
  have hin1 : compute_code ((0:ℤ) : ℚ) ((0:ℤ) : ℚ) ((10:ℤ) : ℚ) ((10:ℤ) : ℚ)
      ((1:ℤ) : ℚ) ((2:ℤ) : ℚ) = ⟨false, false, false, false⟩ := by
    unfold compute_code
    congr 1 <;>
      first
        | exact decide_eq_false (by push_cast; norm_num)
        | exact decide_eq_true (by push_cast; norm_num)
  have hin2 : compute_code ((0:ℤ) : ℚ) ((0:ℤ) : ℚ) ((10:ℤ) : ℚ) ((10:ℤ) : ℚ)
      ((3:ℤ) : ℚ) ((4:ℤ) : ℚ) = ⟨false, false, false, false⟩ := by
    unfold compute_code
    congr 1 <;>
      first
        | exact decide_eq_false (by push_cast; norm_num)
        | exact decide_eq_true (by push_cast; norm_num)
  have hout : compute_code ((0:ℤ) : ℚ) ((0:ℤ) : ℚ) ((10:ℤ) : ℚ) ((10:ℤ) : ℚ)
      ((20:ℤ) : ℚ) ((20:ℤ) : ℚ) = ⟨false, true, false, true⟩ := by
    unfold compute_code
    congr 1 <;>
      first
        | exact decide_eq_false (by push_cast; norm_num)
        | exact decide_eq_true (by push_cast; norm_num)
  have hout2 : compute_code ((0:ℤ) : ℚ) ((0:ℤ) : ℚ) ((10:ℤ) : ℚ) ((10:ℤ) : ℚ)
      ((30:ℤ) : ℚ) ((30:ℤ) : ℚ) = ⟨false, true, false, true⟩ := by
    unfold compute_code
    congr 1 <;>
      first
        | exact decide_eq_false (by push_cast; norm_num)
        | exact decide_eq_true (by push_cast; norm_num)
  refine ⟨by norm_num, ?_, ?_⟩
  · exact (cohen_sutherland_clip_trivial 1 2 3 4 0 0 10 10 (by norm_num) (by norm_num)).1
      ⟨by rw [hin1]; rfl, by rw [hin2]; rfl⟩
  · exact (cohen_sutherland_clip_trivial 20 20 30 30 0 0 10 10 (by norm_num) (by norm_num)).2
      (by rw [hout, hout2]; rfl)

/-- Claim C3: whenever the clip loop is about to execute one of the four
intersection branches (neither trivial accept nor trivial reject applies,
and the picked outcode flags the corresponding boundary first in the
priority order TOP, BOTTOM, RIGHT, LEFT), the divisor of that branch
(`y1 - y0` for TOP/BOTTOM, `x1 - x0` for RIGHT/LEFT) is nonzero: a segment
parallel to and outside the flagged edge would already have been trivially
rejected.  The outcodes carried by `csLoop` always equal `compute_code` of
the current endpoints, so this covers every iteration. -/
theorem cohen_sutherland_divisor_nonzero (xmin ymin xmax ymax x0 y0 x1 y1 : ℚ)
    (hnz : ¬((compute_code xmin ymin xmax ymax x0 y0).isZero = true ∧
             (compute_code xmin ymin xmax ymax x1 y1).isZero = true))
    (hshare : (OutCode.and (compute_code xmin ymin xmax ymax x0 y0)
               (compute_code xmin ymin xmax ymax x1 y1)).isZero = true) :
    ((pickOut (compute_code xmin ymin xmax ymax x0 y0)
        (compute_code xmin ymin xmax ymax x1 y1)).top = true → y1 - y0 ≠ 0) ∧
    ((pickOut (compute_code xmin ymin xmax ymax x0 y0)
        (compute_code xmin ymin xmax ymax x1 y1)).top = false →
      (pickOut (compute_code xmin ymin xmax ymax x0 y0)
        (compute_code xmin ymin xmax ymax x1 y1)).bottom = true → y1 - y0 ≠ 0) ∧
    ((pickOut (compute_code xmin ymin xmax ymax x0 y0)
        (compute_code xmin ymin xmax ymax x1 y1)).top = false →
      (pickOut (compute_code xmin ymin xmax ymax x0 y0)
        (compute_code xmin ymin xmax ymax x1 y1)).bottom = false →
      (pickOut (compute_code xmin ymin xmax ymax x0 y0)
        (compute_code xmin ymin xmax ymax x1 y1)).right = true → x1 - x0 ≠ 0) ∧
    ((pickOut (compute_code xmin ymin xmax ymax x0 y0)
        (compute_code xmin ymin xmax ymax x1 y1)).top = false →
      (pickOut (compute_code xmin ymin xmax ymax x0 y0)
        (compute_code xmin ymin xmax ymax x1 y1)).bottom = false →
      (pickOut (compute_code xmin ymin xmax ymax x0 y0)
        (compute_code xmin ymin xmax ymax x1 y1)).right = false →
      (pickOut (compute_code xmin ymin xmax ymax x0 y0)
        (compute_code xmin ymin xmax ymax x1 y1)).left = true → x1 - x0 ≠ 0) := by
  set c0 := compute_code xmin ymin xmax ymax x0 y0 with hc0
  set c1 := compute_code xmin ymin xmax ymax x1 y1 with hc1
  refine ⟨?_, ?_, ?_, ?_⟩
  · intro ht heq
    have hy : y1 = y0 := sub_eq_zero.mp heq
    unfold pickOut at ht
    by_cases hz : c0.isZero = false
    · rw [if_pos hz] at ht
      rw [hc0] at ht
      have h0 := compute_code_top_iff.mp ht
      have h1 : c1.top = true := by
        rw [hc1]
        exact compute_code_top_iff.mpr (by rw [hy]; exact h0)
      exact and_isZero_not_both_top hshare (by rw [hc0]; exact ht) h1
    · rw [if_neg hz] at ht
      rw [hc1] at ht
      have h1 := compute_code_top_iff.mp ht
      have h0 : c0.top = true := by
        rw [hc0]
        exact compute_code_top_iff.mpr (by rw [← hy]; exact h1)
      exact and_isZero_not_both_top hshare h0 (by rw [hc1]; exact ht)
  · intro _ hb heq
    have hy : y1 = y0 := sub_eq_zero.mp heq
    unfold pickOut at hb
    by_cases hz : c0.isZero = false
    · rw [if_pos hz] at hb
      rw [hc0] at hb
      have h0 := compute_code_bottom_iff.mp hb
      have h1 : c1.bottom = true := by
        rw [hc1]
        exact compute_code_bottom_iff.mpr (by rw [hy]; exact h0)
      exact and_isZero_not_both_bottom hshare (by rw [hc0]; exact hb) h1
    · rw [if_neg hz] at hb
      rw [hc1] at hb
      have h1 := compute_code_bottom_iff.mp hb
      have h0 : c0.bottom = true := by
        rw [hc0]
        exact compute_code_bottom_iff.mpr (by rw [← hy]; exact h1)
      exact and_isZero_not_both_bottom hshare h0 (by rw [hc1]; exact hb)
  · intro _ _ hr heq
    have hx : x1 = x0 := sub_eq_zero.mp heq
    unfold pickOut at hr
    by_cases hz : c0.isZero = false
    · rw [if_pos hz] at hr
      rw [hc0] at hr
      have h0 := compute_code_right_iff.mp hr
      have h1 : c1.right = true := by
        rw [hc1]
        exact compute_code_right_iff.mpr (by rw [hx]; exact h0)
      exact and_isZero_not_both_right hshare (by rw [hc0]; exact hr) h1
    · rw [if_neg hz] at hr
      rw [hc1] at hr
      have h1 := compute_code_right_iff.mp hr
      have h0 : c0.right = true := by
        rw [hc0]
        exact compute_code_right_iff.mpr (by rw [← hx]; exact h1)
      exact and_isZero_not_both_right hshare h0 (by rw [hc1]; exact hr)
  · intro _ _ _ hl heq
    have hx : x1 = x0 := sub_eq_zero.mp heq
    unfold pickOut at hl
    by_cases hz : c0.isZero = false
    · rw [if_pos hz] at hl
      rw [hc0] at hl
      have h0 := compute_code_left_iff.mp hl
      have h1 : c1.left = true := by
        rw [hc1]
        exact compute_code_left_iff.mpr (by rw [hx]; exact h0)
      exact and_isZero_not_both_left hshare (by rw [hc0]; exact hl) h1
    · rw [if_neg hz] at hl
      rw [hc1] at hl
      have h1 := compute_code_left_iff.mp hl
      have h0 : c0.left = true := by
        rw [hc0]
        exact compute_code_left_iff.mpr (by rw [← hx]; exact h1)
      exact and_isZero_not_both_left hshare h0 (by rw [hc1]; exact hl)

theorem cohen_sutherland_divisor_nonzero_witness :
    (OutCode.and (compute_code (0:ℚ) 0 10 10 2 20) (compute_code (0:ℚ) 0 10 10 5 5)).isZero
      = true ∧ ((5:ℚ) - 20 ≠ 0) := by
  have hcA : compute_code (0:ℚ) 0 10 10 2 20 = ⟨false, false, false, true⟩ := by
    unfold compute_code
    congr 1 <;>
      first
        | exact decide_eq_false (by norm_num)
        | exact decide_eq_true (by norm_num)
  have hcB : compute_code (0:ℚ) 0 10 10 5 5 = ⟨false, false, false, false⟩ := by
    unfold compute_code
    congr 1 <;>
      first
        | exact decide_eq_false (by norm_num)
        | exact decide_eq_true (by norm_num)
  refine ⟨by rw [hcA, hcB]; rfl, ?_⟩
  refine (cohen_sutherland_divisor_nonzero 0 0 10 10 2 20 5 5 ?_ ?_).1 ?_
  · rw [hcA, hcB]; decide
  · rw [hcA, hcB]; rfl
  · rw [hcA, hcB]; rfl

/-- Claim C10: whenever `cohen_sutherland_clip` returns a segment for integer
endpoints and a normalized integer clip rectangle, both returned endpoints
lie inside the rectangle, including after the final truncation to
integers. -/
theorem cohen_sutherland_clip_in_rect (x0 y0 x1 y1 xmin ymin xmax ymax a b c d : ℤ)
    (hx : xmin ≤ xmax) (hy : ymin ≤ ymax)
    (h : cohen_sutherland_clip ↑x0 ↑y0 ↑x1 ↑y1 ((xmin : ℚ), (ymin : ℚ), (xmax : ℚ), (ymax : ℚ))
      = some (a, b, c, d)) :
    xmin ≤ a ∧ a ≤ xmax ∧ ymin ≤ b ∧ b ≤ ymax ∧
    xmin ≤ c ∧ c ≤ xmax ∧ ymin ≤ d ∧ d ≤ ymax := by
  rw [cohen_sutherland_clip_eq] at h
  cases hres : csLoop ↑xmin ↑ymin ↑xmax ↑ymax 10 ↑x0 ↑y0 ↑x1 ↑y1
      (compute_code ↑xmin ↑ymin ↑xmax ↑ymax ↑x0 ↑y0)
      (compute_code ↑xmin ↑ymin ↑xmax ↑ymax ↑x1 ↑y1) with
  | none => rw [hres] at h; exact absurd h (by simp)
  | some q =>
    obtain ⟨qa, qb, qc, qd⟩ := q
    rw [hres] at h
    simp only [Option.some.injEq, Prod.mk.injEq] at h
    obtain ⟨rfl, rfl, rfl, rfl⟩ := h
    have hb := csLoop_inside (↑xmin) (↑ymin) (↑xmax) (↑ymax) 10 (↑x0) (↑y0) (↑x1) (↑y1)
      _ _ rfl rfl qa qb qc qd hres
    exact ⟨le_pytrunc hb.1, pytrunc_le hb.2.1, le_pytrunc hb.2.2.1, pytrunc_le hb.2.2.2.1,
      le_pytrunc hb.2.2.2.2.1, pytrunc_le hb.2.2.2.2.2.1,
      le_pytrunc hb.2.2.2.2.2.2.1, pytrunc_le hb.2.2.2.2.2.2.2⟩

theorem cohen_sutherland_clip_in_rect_witness :
    cohen_sutherland_clip ((1:ℤ) : ℚ) ((2:ℤ) : ℚ) ((3:ℤ) : ℚ) ((4:ℤ) : ℚ)
      (((0:ℤ) : ℚ), ((0:ℤ) : ℚ), ((10:ℤ) : ℚ), ((10:ℤ) : ℚ)) = some (1, 2, 3, 4) ∧
    ((0:ℤ) ≤ 1 ∧ (1:ℤ) ≤ 10 ∧ (0:ℤ) ≤ 2 ∧ (2:ℤ) ≤ 10 ∧
     (0:ℤ) ≤ 3 ∧ (3:ℤ) ≤ 10 ∧ (0:ℤ) ≤ 4 ∧ (4:ℤ) ≤ 10) := by
  have hin1 : compute_code ((0:ℤ) : ℚ) ((0:ℤ) : ℚ) ((10:ℤ) : ℚ) ((10:ℤ) : ℚ)
      ((1:ℤ) : ℚ) ((2:ℤ) : ℚ) = ⟨false, false, false, false⟩ := by
    unfold compute_code
    congr 1 <;>
      first
        | exact decide_eq_false (by push_cast; norm_num)
        | exact decide_eq_true (by push_cast; norm_num)
  have hin2 : compute_code ((0:ℤ) : ℚ) ((0:ℤ) : ℚ) ((10:ℤ) : ℚ) ((10:ℤ) : ℚ)
      ((3:ℤ) : ℚ) ((4:ℤ) : ℚ) = ⟨false, false, false, false⟩ := by
    unfold compute_code
    congr 1 <;>
      first
        | exact decide_eq_false (by push_cast; norm_num)
        | exact decide_eq_true (by push_cast; norm_num)
  have hclip : cohen_sutherland_clip ((1:ℤ) : ℚ) ((2:ℤ) : ℚ) ((3:ℤ) : ℚ) ((4:ℤ) : ℚ)
      (((0:ℤ) : ℚ), ((0:ℤ) : ℚ), ((10:ℤ) : ℚ), ((10:ℤ) : ℚ)) = some (1, 2, 3, 4) := by
    rw [cohen_sutherland_clip_eq, show (10:ℕ) = 9 + 1 from rfl, hin1, hin2,
      csLoop_accept _ _ _ _ 9 _ _ _ _ ⟨false, false, false, false⟩ ⟨false, false, false, false⟩
        rfl rfl]
    norm_num [pytrunc]
  exact ⟨hclip,
    cohen_sutherland_clip_in_rect 1 2 3 4 0 0 10 10 1 2 3 4 (by norm_num) (by norm_num) hclip⟩

/-- Claim C4: every pixel produced by `scanline_fill` for a polygon with at
least 3 vertices lies on a scanline `y` with
`max(min vertex y, bbox.ymin) ≤ y ≤ min(max vertex y, bbox.ymax)` and in a
span with `bbox.xmin ≤ x ≤ bbox.xmax`. -/
theorem scanline_fill_bounds (vertices : List (ℚ × ℚ)) (bx0 by0 bx1 by1 : ℤ) (p : ℤ × ℤ)
    (hlen : 3 ≤ vertices.length)
    (hp : p ∈ scanline_fill vertices (bx0, by0, bx1, by1)) :
    max (listMin (vertices.map Prod.snd)) ((by0 : ℚ)) ≤ (p.2 : ℚ) ∧
    (p.2 : ℚ) ≤ min (listMax (vertices.map Prod.snd)) ((by1 : ℚ)) ∧
    bx0 ≤ p.1 ∧ p.1 ≤ bx1 := by
  rw [scanline_fill, if_neg (by omega : ¬vertices.length < 3)] at hp
  simp only [List.mem_flatMap, List.mem_map] at hp
  obtain ⟨y, hy, pr, hpr, x, hx, rfl⟩ := hp
  have hyr := mem_pyIntRange.mp hy
  have hxr := mem_pyIntRange.mp hx
  have hpr1 := (mem_fillPairs _ _ hpr).1
  rw [List.mem_insertionSort] at hpr1
  obtain ⟨e, he, hlo, hhi⟩ := scanIntersections_straddle hpr1
  have hv1 := (edgeRing_mem he).1
  have hv2 := (edgeRing_mem he).2
  have hm1 : listMin (vertices.map Prod.snd) ≤ e.1.2 :=
    listMin_le (List.mem_map.mpr ⟨e.1, hv1, rfl⟩)
  have hm2 : listMin (vertices.map Prod.snd) ≤ e.2.2 :=
    listMin_le (List.mem_map.mpr ⟨e.2, hv2, rfl⟩)
  have hM1 : e.1.2 ≤ listMax (vertices.map Prod.snd) :=
    le_listMax (List.mem_map.mpr ⟨e.1, hv1, rfl⟩)
  have hM2 : e.2.2 ≤ listMax (vertices.map Prod.snd) :=
    le_listMax (List.mem_map.mpr ⟨e.2, hv2, rfl⟩)
  refine ⟨max_le (le_trans (le_min hm1 hm2) hlo) ?_,
    le_min (le_trans hhi (max_le hM1 hM2)) ?_, ?_, ?_⟩
  · have : by0 ≤ y := le_trans (le_max_right _ _) hyr.1
    exact_mod_cast this
  · have : y ≤ by1 := le_trans hyr.2 (min_le_right _ _)
    exact_mod_cast this
  · exact le_trans (le_max_right _ _) hxr.1
  · exact le_trans hxr.2 (min_le_right _ _)

theorem scanline_fill_bounds_witness :
    3 ≤ ([((0:ℚ), (0:ℚ)), (2, 0), (1, 2)] : List (ℚ × ℚ)).length ∧
    ((1:ℤ), (1:ℤ)) ∈ scanline_fill [((0:ℚ), (0:ℚ)), (2, 0), (1, 2)] (0, 0, 5, 5) ∧
    ((0:ℤ) ≤ ((1:ℤ), (1:ℤ)).1 ∧ ((1:ℤ), (1:ℤ)).1 ≤ 5) := by
  have hmem : ((1:ℤ), (1:ℤ)) ∈ scanline_fill [((0:ℚ), (0:ℚ)), (2, 0), (1, 2)] (0, 0, 5, 5) := by
    have hI : scanIntersections [((0:ℚ), (0:ℚ)), (2, 0), (1, 2)] 1 = [1, 0] := by
      norm_num [scanIntersections, edgeRing, List.rotate, List.filterMap_cons, pytrunc,
        min_def, max_def]
    rw [scanline_fill, if_neg (by norm_num)]
    refine List.mem_flatMap.mpr ⟨1, ?_, ?_⟩
    · refine mem_pyIntRange.mpr ⟨?_, ?_⟩ <;>
        norm_num [listMin, listMax, pytrunc, min_def, max_def]
    · refine List.mem_flatMap.mpr ⟨(0, 1), ?_, ?_⟩
      · rw [hI]
        have hsort : List.insertionSort (· ≤ ·) ([1, 0] : List ℤ) = [0, 1] := by
          simp [List.insertionSort, List.orderedInsert]
        rw [hsort]
        simp [fillPairs]
      · refine List.mem_map.mpr ⟨1, ?_, rfl⟩
        refine mem_pyIntRange.mpr ⟨?_, ?_⟩ <;> norm_num
  exact ⟨by norm_num, hmem,
    (scanline_fill_bounds [((0:ℚ), (0:ℚ)), (2, 0), (1, 2)] 0 0 5 5 (1, 1)
      (by norm_num) hmem).2.2⟩

/-- Claim C8: a shape whose points list is shorter than its kind requires
(2 for line/circle, 4 for bezier, 1 for char, 3 for polygon) produces no
pixels — it is skipped, so the remaining shapes of a batch still render —
and a character whose uppercased form is not in the glyph table falls back
to the default `'A'` glyph pattern. -/
theorem render_shape_error_handling :
    (∀ (w h : ℤ) (s : Shape),
      ((s.type = some "line" ∨ s.type = some "circle") →
        (s.points.getD []).length < 2 → render_shape_pixels w h s = []) ∧
      (s.type = some "bezier" → (s.points.getD []).length < 4 →
        render_shape_pixels w h s = []) ∧
      (s.type = some "char" → (s.points.getD []).length < 1 →
        render_shape_pixels w h s = []) ∧
      (s.type = some "polygon" → (s.points.getD []).length < 3 →
        render_shape_pixels w h s = [])) ∧
    (∀ (c : Char) (x y : ℤ) (scale : ℕ),
      c.toUpper ≠ 'A' → c.toUpper ≠ 'B' → c.toUpper ≠ 'C' →
      dot_matrix_char c x y scale = dot_matrix_char 'A' x y scale) := by
  constructor
  · intro w h s
    refine ⟨?_, ?_, ?_, ?_⟩
    · intro hty hlen
      rcases hty with hty | hty <;>
        simp [render_shape_pixels, hty, show ¬2 ≤ (s.points.getD []).length by omega]
    · intro hty hlen
      simp [render_shape_pixels, hty, show ¬4 ≤ (s.points.getD []).length by omega]
    · intro hty hlen
      simp [render_shape_pixels, hty, show ¬1 ≤ (s.points.getD []).length by omega]
    · intro hty hlen
      simp [render_shape_pixels, hty, show ¬3 ≤ (s.points.getD []).length by omega]
  · intro c x y scale h1 h2 h3
    have hpat : glyphPattern c = glyphPattern 'A' := by
      rw [glyphPattern, glyphPattern, if_neg h1, if_neg h2, if_neg h3,
        if_pos (by decide : ('A' : Char).toUpper = 'A')]
    unfold dot_matrix_char
    rw [hpat]

theorem render_shape_error_handling_witness :
    (Shape.mk (some "line") (some [((0:ℚ), (0:ℚ))]) none none none none).type = some "line" ∧
    render_shape_pixels 800 600
      (Shape.mk (some "line") (some [((0:ℚ), (0:ℚ))]) none none none none) = [] ∧
    ('Z'.toUpper ≠ 'A') ∧
    dot_matrix_char 'Z' 0 0 1 = dot_matrix_char 'A' 0 0 1 := by
  refine ⟨rfl, ?_, by decide, ?_⟩
  · exact (render_shape_error_handling.1 800 600
      (Shape.mk (some "line") (some [((0:ℚ), (0:ℚ))]) none none none none)).1
      (Or.inl rfl) (by norm_num)
  · exact render_shape_error_handling.2 'Z' 0 0 1 (by decide) (by decide) (by decide)

/-- Claim C9: `translate_shape`, `rotate_shape` and `scale_shape` change only
the points field of a shape: the type, color, char, scale and filled fields
are left exactly as they were, and a shape with no points field is left
entirely unchanged. -/
theorem transform_frame (s : Shape) (dx dy cosA sinA cx cy factor : ℚ) :
    ((translate_shape s dx dy).type = s.type ∧ (translate_shape s dx dy).color = s.color ∧
     (translate_shape s dx dy).char = s.char ∧ (translate_shape s dx dy).scale = s.scale ∧
     (translate_shape s dx dy).filled = s.filled) ∧
    ((rotate_shape s cosA sinA cx cy).type = s.type ∧
     (rotate_shape s cosA sinA cx cy).color = s.color ∧
     (rotate_shape s cosA sinA cx cy).char = s.char ∧
     (rotate_shape s cosA sinA cx cy).scale = s.scale ∧
     (rotate_shape s cosA sinA cx cy).filled = s.filled) ∧
    ((scale_shape s factor cx cy).type = s.type ∧
     (scale_shape s factor cx cy).color = s.color ∧
     (scale_shape s factor cx cy).char = s.char ∧
     (scale_shape s factor cx cy).scale = s.scale ∧
     (scale_shape s factor cx cy).filled = s.filled) ∧
    (s.points = none →
      translate_shape s dx dy = s ∧ rotate_shape s cosA sinA cx cy = s ∧
      scale_shape s factor cx cy = s) := by
  refine ⟨⟨rfl, rfl, rfl, rfl, rfl⟩, ⟨rfl, rfl, rfl, rfl, rfl⟩,
    ⟨rfl, rfl, rfl, rfl, rfl⟩, ?_⟩
  intro hnone
  obtain ⟨t, pts, col, ch, sc, fi⟩ := s
  simp only at hnone
  subst hnone
  exact ⟨rfl, rfl, rfl⟩

theorem transform_frame_witness :
    (Shape.mk (some "line") none (some "#000000") none none none).points = none ∧
    translate_shape (Shape.mk (some "line") none (some "#000000") none none none) 5 7 =
      Shape.mk (some "line") none (some "#000000") none none none :=
  ⟨rfl, ((transform_frame (Shape.mk (some "line") none (some "#000000") none none none)
      5 7 1 0 0 0 2).2.2.2 rfl).1⟩
